import Mathlib

/-!
# Shallow embedding of the tic-tac-toe console game (`src/main.rs`)

The Rust program is a single file. Its pure core — `Piece`, `Board`
(a `Vec<Option<Piece>>` of `BOARD_WIDTH²` cells with bounds-checked
read and copy-on-write write), the precomputed winning-line list, win
detection, turn flipping and round reset — is translated definition by
definition below. The I/O shell (`Game::run` reading lines from stdin)
is embedded by making the stdin stream explicit: a `List String` of
input lines threaded through the loop bodies, with `Option` recording
the two ways an iteration can fail to produce anything (a Rust panic,
or the script running out while the loop would keep blocking on stdin).
Rust panics inside the pure fragment (`Vec` indexing out of range,
`.expect` on `Err`/`None`) are modelled by `Option.none` results where
they are reachable, and by total default reads (`List.getD`) where the
call site provably keeps the index in range.
-/

set_option autoImplicit false

namespace TicTacToe

/-- Source `const BOARD_WIDTH: usize = 3;` -/
def BOARD_WIDTH : Nat := 3

/-- Source `enum Piece { Naught, Cross }` -/
inductive Piece where
  | Naught
  | Cross
deriving DecidableEq, Repr

/-- Source `impl Display for Piece`: `Cross ↦ "X"`, `Naught ↦ "O"`. -/
def Piece.render : Piece → String
  | .Cross => "X"
  | .Naught => "O"

/-- Source `type BoardPosition = Option<Piece>;` -/
abbrev BoardPosition := Option Piece

/-- Source `struct Board { positions: Vec<BoardPosition> }` -/
structure Board where
  positions : List BoardPosition
deriving DecidableEq, Repr

/-- Source `enum TicTacToeError { OutOfBounds, PieceInPosition(usize, usize), InvalidMoveInput }` -/
inductive TicTacToeError where
  | OutOfBounds
  | PieceInPosition (x y : Nat)
  | InvalidMoveInput
deriving DecidableEq, Repr

deriving instance DecidableEq for Except

/-- Source `Board::new`: `(0..BOARD_WIDTH * BOARD_WIDTH).map(|_i| None).collect()`. -/
def Board.new : Board :=
  ⟨(List.range (BOARD_WIDTH * BOARD_WIDTH)).map (fun _i => none)⟩

/-- Source `Board::get_position(x, y)`: out-of-bounds check, then read the linear
slot `y * BOARD_WIDTH + x`.  The Rust `Vec` index would panic when the slot
is past the end of `positions`; every `Board` the program builds has
`BOARD_WIDTH²` slots, so the in-bounds read never reaches the default of
`List.getD`. -/
def Board.get_position (b : Board) (x y : Nat) :
    Except TicTacToeError BoardPosition :=
  if x ≥ BOARD_WIDTH ∨ y ≥ BOARD_WIDTH then
    .error .OutOfBounds
  else
    .ok (b.positions.getD (y * BOARD_WIDTH + x) none)

/-- Source `Board::set_piece(x, y, piece)`: propagate `get_position`'s error with
`?`, fail with `PieceInPosition(x, y)` on an occupied cell, otherwise
rebuild the whole vector with `enumerate`/`map`, replacing only the slot
`y * BOARD_WIDTH + x` (copy-on-write: the receiver is untouched). -/
def Board.set_piece (b : Board) (x y : Nat) (piece : Piece) :
    Except TicTacToeError Board :=
  match b.get_position x y with
  | .error e => .error e
  | .ok (some _piece) => .error (.PieceInPosition x y)
  | .ok none =>
      .ok ⟨b.positions.enum.map (fun ip =>
        if ip.1 = y * BOARD_WIDTH + x then some piece else ip.2)⟩

/-- One cell of `impl Display for Board`: empty cells print `"."`, occupied
cells print the piece's glyph. -/
def renderCell : BoardPosition → String
  | none => "."
  | some piece => piece.render

/-- The `BoardPosition` that `impl Display for Board` shows at displayed
row `i`, column `j`: the loop reads `positions[i * BOARD_WIDTH + j]`. -/
def Board.displayCell (b : Board) (i j : Nat) : BoardPosition :=
  b.positions.getD (i * BOARD_WIDTH + j) none

/-- Source `impl Display for Board`: for each row `i`, each cell followed by a
space, then a newline. -/
def Board.render (b : Board) : String :=
  String.join ((List.range BOARD_WIDTH).map (fun i =>
    String.join ((List.range BOARD_WIDTH).map (fun j =>
      renderCell (b.positions.getD (i * BOARD_WIDTH + j) none) ++ " "))
      ++ "\n"))

/-- The cell read performed inside `Game::check_slice_for_winner`:
`board.get_position(*x, *y).expect(..)`.  The `.expect` panic fires only
on out-of-bounds coordinates; the slices this program passes are all in
bounds (proved below), so the panic is unreachable and the read is
totalised to an empty cell. -/
def readCell (b : Board) (xy : Nat × Nat) : BoardPosition :=
  ((b.get_position xy.1 xy.2).toOption).getD none

/-- Source `struct GameState { board: Board, turn: Piece }` -/
structure GameState where
  board : Board
  turn : Piece
deriving DecidableEq, Repr

/-- The winning-line list built in `Game::new`: for each `i`, the line of
all `(j, i)` and the line of all `(i, j)`, then the two diagonals
`(i, i)` and `(BOARD_WIDTH - 1 - i, i)` appended with `.chain`. -/
def winning_positions : List (List (Nat × Nat)) :=
  ((List.range BOARD_WIDTH).flatMap (fun i =>
    [ (List.range BOARD_WIDTH).map (fun j => (j, i)),
      (List.range BOARD_WIDTH).map (fun j => (i, j)) ]))
  ++
  [ (List.range BOARD_WIDTH).map (fun i => (i, i)),
    (List.range BOARD_WIDTH).map (fun i => (BOARD_WIDTH - 1 - i, i)) ]

/-- Source `struct Game { state: GameState, winning_positions: Vec<Vec<(usize, usize)>> }` -/
structure Game where
  state : GameState
  winning_positions : List (List (Nat × Nat))
deriving DecidableEq, Repr

/-- Source `Game::new`: empty board, `Naught` to move, the precomputed lines. -/
def Game.new : Game :=
  { state := { board := Board.new, turn := Piece.Naught }
    winning_positions := TicTacToe.winning_positions }

/-- Source `Game::change_turn`: flip whose turn it is (pure read of `state.turn`). -/
def change_turn : Piece → Piece
  | .Naught => .Cross
  | .Cross => .Naught

/-- Source `Game::reset_state`: fresh empty board, turn flipped from the current
`state.turn` (note: `run` reaches this without having flipped the turn
after the winning move). -/
def reset_state (st : GameState) : GameState :=
  { board := Board.new, turn := change_turn st.turn }

/-- Rust `str::trim` of the input line, as the character list. -/
def rustTrim (s : String) : List Char :=
  ((s.data.dropWhile Char.isWhitespace).reverse.dropWhile
    Char.isWhitespace).reverse

/-- Rust `str::split(" ")`: split at every single space; the empty string
yields `[""]`, adjacent separators yield empty pieces. -/
def splitSpace : List Char → List (List Char)
  | [] => [[]]
  | c :: rest =>
      if c = ' ' then
        [] :: splitSpace rest
      else
        match splitSpace rest with
        | t :: ts => (c :: t) :: ts
        | [] => [[c]]

/-- Rust `usize::from_str` on one token: an optional leading `'+'`, then one or
more ASCII digits (overflow, irrelevant at this board size, is ignored). -/
def parseUsize (cs : List Char) : Option Nat :=
  let digits := if cs.head? = some '+' then cs.tail else cs
  if digits.isEmpty then none
  else if digits.all Char.isDigit then
    some (digits.foldl (fun acc c => acc * 10 + (c.toNat - '0'.toNat)) 0)
  else none

/-- Source `Game::get_move` applied to one stdin line: trim, split on `" "`, then
build the pair `(coords[0].parse()?, coords[1].parse()?)`.  The Rust
indexing `coords[0]` / `coords[1]` panics when the token is missing;
`none` records that panic, `some` the function's `Result`. -/
def getMove (line : String) :
    Option (Except TicTacToeError (Nat × Nat)) :=
  let coords := splitSpace (rustTrim line)
  match coords.get? 0 with
  | none => none
  | some c0 =>
    match parseUsize c0 with
    | none => some (.error .InvalidMoveInput)
    | some x =>
      match coords.get? 1 with
      | none => none
      | some c1 =>
        match parseUsize c1 with
        | none => some (.error .InvalidMoveInput)
        | some y => some (.ok (x, y))

/-- Source `Game::check_slice_for_winner`: read every cell of the slice (the
`.expect` panic on out-of-bounds coordinates is unreachable for the
program's slices, whose coordinates are all in bounds; an out-of-bounds
read is totalised to an empty cell), take `positions[0]` (the `.expect`
on an empty slice is likewise unreachable), and return it when every
cell is occupied and equal to it. -/
def check_slice_for_winner (b : Board) (slice : List (Nat × Nat)) :
    Option Piece :=
  let positions := slice.map (readCell b)
  match positions.head? with
  | none => none
  | some position =>
      if positions.all (fun p => p.isSome && decide (p = position)) then
        position
      else
        none

/-- The `for` loop of `Game::check_winner`: first slice with a winner, in
list order. -/
def check_winner_aux (b : Board) : List (List (Nat × Nat)) → Option Piece
  | [] => none
  | slice :: rest =>
      match check_slice_for_winner b slice with
      | some winner => some winner
      | none => check_winner_aux b rest

/-- Source `Game::check_winner`: scan `winning_positions` in order. -/
def Game.check_winner (g : Game) : Option Piece :=
  check_winner_aux g.state.board g.winning_positions

/-- The innermost loop of `Game::run`: repeat
`get_move().and_then(|(x, y)| set_piece(x, y, turn))`, printing
"Invalid move" and retrying on `Err`, until a move lands; a landed move
updates `state.board` and breaks.  The stdin script is explicit;
`none` means the loop never breaks on this script — a `get_move` panic,
or the script exhausted while the loop still re-prompts. -/
def innerLoop (st : GameState) :
    List String → Option (GameState × List String)
  | [] => none
  | line :: rest =>
      match getMove line with
      | none => none
      | some (.error _) => innerLoop st rest
      | some (.ok (x, y)) =>
          match st.board.set_piece x y st.turn with
          | .error _ => innerLoop st rest
          | .ok board => some ({ st with board := board }, rest)

/-- One iteration of the middle loop of `Game::run`: the inner loop lands
a move, then `check_winner` runs on the updated state; a winner breaks
out to the reset (`Sum.inl`, carrying `reset_state` of the un-flipped
state as `run`'s next round state), otherwise the turn flips and the
middle loop continues (`Sum.inr`). -/
def midLoopBody (st : GameState) (script : List String) :
    Option ((GameState × List String) ⊕ (GameState × List String)) :=
  match innerLoop st script with
  | none => none
  | some (st', rest) =>
      match check_winner_aux st'.board winning_positions with
      | some _winner => some (.inl (reset_state st', rest))
      | none => some (.inr ({ st' with turn := change_turn st'.turn }, rest))

/-- Runs `n` win-free iterations of the middle loop of `Game::run`: the state
after `n` successful moves, each followed by a winnerless `check_winner`
and a turn flip.  `none` when an iteration stalls or a winner appears. -/
def playTurns (st : GameState) (script : List String) :
    Nat → Option (GameState × List String)
  | 0 => some (st, script)
  | n + 1 =>
      match midLoopBody st script with
      | some (.inr (st', rest)) => playTurns st' rest n
      | _ => none

/-- The middle loop of `Game::run` until its `break`, with fuel: iterate
`midLoopBody` until a winner ends the round, and return the state that
`run` installs for the next round (`reset_state` of the winning state)
together with the unread script. -/
def playRound (st : GameState) (script : List String) :
    Nat → Option (GameState × List String)
  | 0 => none
  | fuel + 1 =>
      match midLoopBody st script with
      | none => none
      | some (.inl (next, rest)) => some (next, rest)
      | some (.inr (st', rest)) => playRound st' rest fuel

/-- The property that some line has all `side` cells occupied by the
identical piece `p`:
the non-empty slice reads `some p` at every coordinate (cells read the way
`check_slice_for_winner` reads them). -/
def uniformLine (b : Board) (s : List (Nat × Nat)) (p : Piece) : Prop :=
  s ≠ [] ∧ ∀ xy ∈ s, readCell b xy = some p

/-- A classic drawn position: every cell occupied, no line uniform.
Displayed rows: `O X O` / `O X X` / `X O O`. -/
def drawBoard : Board :=
  ⟨[some .Naught, some .Cross, some .Naught,
    some .Naught, some .Cross, some .Cross,
    some .Cross, some .Naught, some .Naught]⟩

/-- A stdin script of nine legal moves that fills the board to
`drawBoard` without any player ever completing a line. -/
def drawScript : List String :=
  ["0 0", "1 0", "2 0", "1 1", "0 1", "2 1", "1 2", "0 2", "2 2"]

/-- A stdin script for one round in which the second player to move
(`Cross`, since `Game::new` starts with `Naught`) completes the line
`(0,1),(1,1),(2,1)` on the sixth move. -/
def crossWinsScript : List String :=
  ["0 0", "0 1", "1 0", "1 1", "2 2", "2 1"]

/-- A position where `Cross` holds `(0,1)` and `(1,1)` and completes a
line by playing `(2,1)`. -/
def nearWinBoard : Board :=
  ⟨[none, none, none, some .Cross, some .Cross, none, none, none, none]⟩

/-- The board obtained by playing the move parsed from the line
`"1 0"` (so `x = 1`, `y = 0`) on an empty board as `Naught`: the single
occupied linear slot is `0 * BOARD_WIDTH + 1 = 1`. -/
def placedBoard : Board :=
  ⟨[none, some .Naught, none, none, none, none, none, none, none]⟩

/-! ## Basic facts about reads and writes -/

/-- A read outside the grid fails with `OutOfBounds`. -/
theorem get_position_oob (b : Board) (x y : Nat)
    (h : BOARD_WIDTH ≤ x ∨ BOARD_WIDTH ≤ y) :
    b.get_position x y = .error .OutOfBounds := by
  unfold Board.get_position
  rw [if_pos h]

/-- A write outside the grid fails with `OutOfBounds` (the `?` on
`get_position` propagates the error). -/
theorem set_piece_oob (b : Board) (x y : Nat) (p : Piece)
    (h : BOARD_WIDTH ≤ x ∨ BOARD_WIDTH ≤ y) :
    b.set_piece x y p = .error .OutOfBounds := by
  unfold Board.set_piece
  rw [get_position_oob b x y h]

/-- A write to an occupied cell fails with `PieceInPosition(x, y)`. -/
theorem set_piece_occupied (b : Board) (x y : Nat) (p q : Piece)
    (h : b.get_position x y = .ok (some q)) :
    b.set_piece x y p = .error (.PieceInPosition x y) := by
  unfold Board.set_piece
  rw [h]

/-- Claim C1.  The source scenario: the line `"abc"` (and the empty
line) make `coords[0].parse` fail and `get_move` return
`InvalidMoveInput`; but the line `"1"` parses its first token
successfully and then indexes `coords[1]` on a one-element vector,
which is a Rust panic (`none` in the embedding), not an
`InvalidMoveInput` result. -/
theorem get_move_missing_second_token_crashes :
    getMove ("1") = none ∧
    getMove ("abc") = some (.error .InvalidMoveInput) ∧
    getMove ("") = some (.error .InvalidMoveInput) :=
  ⟨rfl, rfl, rfl⟩

/-- Claim C8.  For every board and every coordinate pair with
`x ≥ BOARD_WIDTH` or `y ≥ BOARD_WIDTH`, both the read and the write
fail with `OutOfBounds`. -/
theorem get_and_place_out_of_bounds (b : Board) (x y : Nat) (p : Piece)
    (h : BOARD_WIDTH ≤ x ∨ BOARD_WIDTH ≤ y) :
    b.get_position x y = .error .OutOfBounds ∧
    b.set_piece x y p = .error .OutOfBounds :=
  ⟨get_position_oob b x y h, set_piece_oob b x y p h⟩

/-- Witness for C8 at the concrete out-of-bounds pair `(3, 0)`. -/
theorem get_and_place_out_of_bounds_witness :
    (BOARD_WIDTH ≤ 3 ∨ BOARD_WIDTH ≤ 0) ∧
    Board.new.get_position 3 0 = .error .OutOfBounds ∧
    Board.new.set_piece 3 0 Piece.Cross = .error .OutOfBounds :=
  ⟨Or.inl (by decide),
    get_and_place_out_of_bounds Board.new 3 0 Piece.Cross (Or.inl (by decide))⟩

/-- Claim C7.  Writing to an in-bounds occupied cell fails with
`PieceInPosition(x, y)`, and the failed call produces no board at all
(error atomicity: the receiver is the only board there is). -/
theorem place_on_occupied_cell (b : Board) (x y : Nat) (p q : Piece)
    (_hx : x < BOARD_WIDTH) (_hy : y < BOARD_WIDTH)
    (hocc : b.get_position x y = .ok (some q)) :
    b.set_piece x y p = .error (.PieceInPosition x y) ∧
    ∀ b', b.set_piece x y p ≠ .ok b' := by
  have h1 := set_piece_occupied b x y p q hocc
  exact ⟨h1, fun b' hb' => by rw [h1] at hb'; cases hb'⟩

/-- Witness for C7: a board holding `Cross` at `(0, 0)` rejects a
`Naught` written there. -/
theorem place_on_occupied_cell_witness :
    (0 < BOARD_WIDTH) ∧
    (Board.mk [some .Cross, none, none, none, none, none, none, none, none]).get_position 0 0
      = .ok (some Piece.Cross) ∧
    (Board.mk [some .Cross, none, none, none, none, none, none, none, none]).set_piece 0 0 Piece.Naught
      = .error (.PieceInPosition 0 0) ∧
    ∀ b', (Board.mk [some .Cross, none, none, none, none, none, none, none, none]).set_piece 0 0 Piece.Naught
      ≠ .ok b' :=
  ⟨by decide, by decide,
    place_on_occupied_cell _ 0 0 Piece.Naught Piece.Cross (by decide) (by decide) (by decide)⟩

/-- Claim C9.  The precomputed line list has `2·BOARD_WIDTH + 2`
entries, each of length `BOARD_WIDTH`, every coordinate in bounds, and
no two entries equal. -/
theorem winning_positions_wellformed :
    winning_positions.length = 2 * BOARD_WIDTH + 2 ∧
    (∀ s ∈ winning_positions, s.length = BOARD_WIDTH) ∧
    (∀ s ∈ winning_positions, ∀ xy ∈ s,
      xy.1 < BOARD_WIDTH ∧ xy.2 < BOARD_WIDTH) ∧
    winning_positions.Nodup := by decide

/-- Claim C10.  A fresh `Game` starts with `Naught` to move (rendered
as the glyph `"O"`) on an empty board. -/
theorem game_starts_with_naught :
    Game.new.state.turn = Piece.Naught ∧
    Piece.render Piece.Naught = ("O") ∧
    Game.new.state.board = Board.new :=
  ⟨rfl, rfl, rfl⟩

/-! ## The full winnerless board stalls the move-acquisition loop -/

/-- On the drawn board every write fails: out of bounds, or the target
cell is occupied. -/
theorem drawBoard_set_piece_fails (x y : Nat) (p : Piece) :
    ∃ e, drawBoard.set_piece x y p = .error e := by
  by_cases h : BOARD_WIDTH ≤ x ∨ BOARD_WIDTH ≤ y
  · exact ⟨.OutOfBounds, set_piece_oob drawBoard x y p h⟩
  · push_neg at h
    obtain ⟨hx, hy⟩ := h
    have hocc : ∃ q, drawBoard.get_position x y = .ok (some q) := by
      unfold BOARD_WIDTH at hx hy
      interval_cases x <;> interval_cases y <;> exact ⟨_, rfl⟩
    obtain ⟨q, hq⟩ := hocc
    exact ⟨.PieceInPosition x y, set_piece_occupied drawBoard x y p q hq⟩

/-- With the drawn board current, the inner loop of `Game::run` never
lands a move, whatever stdin supplies. -/
theorem drawBoard_innerLoop_stalls (turn : Piece) (script : List String) :
    innerLoop { board := drawBoard, turn := turn } script = none := by
  induction script with
  | nil => rfl
  | cons line rest ih =>
      unfold innerLoop
      cases hm : getMove line with
      | none => rfl
      | some r =>
          cases r with
          | error e => exact ih
          | ok xy =>
              obtain ⟨x, y⟩ := xy
              obtain ⟨e, he⟩ := drawBoard_set_piece_fails x y turn
              simp only [he]
              exact ih

/-- Hence one whole middle-loop iteration of `Game::run` never
completes from the drawn board. -/
theorem drawBoard_midLoopBody_stalls (turn : Piece) (script : List String) :
    midLoopBody { board := drawBoard, turn := turn } script = none := by
  unfold midLoopBody
  rw [drawBoard_innerLoop_stalls]

/-- Hence no amount of fuel lets `Game::run` finish the round from the
drawn board. -/
theorem drawBoard_playRound_stalls (turn : Piece) (script : List String)
    (fuel : Nat) :
    playRound { board := drawBoard, turn := turn } script fuel = none := by
  cases fuel with
  | zero => rfl
  | succ n =>
      unfold playRound
      rw [drawBoard_midLoopBody_stalls]

/-- Claim C2.  The drawn position is reached by nine legal moves from
the fresh game; it has no winner; yet every placement on it fails, so
the move-acquisition loop never lands a move, no middle-loop iteration
completes, and the round never ends — `run` loops forever re-prompting
instead of ending the round as a draw. -/
theorem full_board_without_winner_never_ends_round :
    playTurns Game.new.state drawScript 9 =
      some ({ board := drawBoard, turn := Piece.Cross }, []) ∧
    check_winner_aux drawBoard winning_positions = none ∧
    (∀ x y p, ∃ e, drawBoard.set_piece x y p = .error e) ∧
    (∀ turn script, innerLoop { board := drawBoard, turn := turn } script = none) ∧
    (∀ turn script fuel,
      playRound { board := drawBoard, turn := turn } script fuel = none) :=
  ⟨rfl, by decide, drawBoard_set_piece_fails, drawBoard_innerLoop_stalls,
    drawBoard_playRound_stalls⟩

/-! ## Win detection -/

/-- Function `check_slice_for_winner` answers `some p` exactly when the slice is
non-empty and every one of its cells reads `some p`. -/
theorem check_slice_for_winner_eq_some (b : Board) (s : List (Nat × Nat))
    (p : Piece) :
    check_slice_for_winner b s = some p ↔ uniformLine b s p := by
  cases s with
  | nil => simp [check_slice_for_winner, uniformLine]
  | cons xy t =>
      simp only [check_slice_for_winner, uniformLine, List.map_cons,
        List.head?_cons]
      split_ifs with hall
      · simp only [List.all_eq_true, List.mem_cons, List.mem_map,
          Bool.and_eq_true, decide_eq_true_eq, Option.isSome_iff_exists]
          at hall
        constructor
        · intro hp
          refine ⟨by simp, ?_⟩
          intro z hz
          rcases List.mem_cons.mp hz with h1 | h2
          · rw [h1]; exact hp
          · have := hall (readCell b z) (Or.inr ⟨z, h2, rfl⟩)
            rw [this.2, hp]
        · intro ⟨_, hforall⟩
          exact hforall xy (List.mem_cons_self xy t)
      · constructor
        · intro h; cases h
        · intro ⟨_, hforall⟩
          exfalso
          apply hall
          simp only [List.all_eq_true, List.mem_cons, List.mem_map,
            Bool.and_eq_true, decide_eq_true_eq, Option.isSome_iff_exists]
          intro q hq
          have hhead : readCell b xy = some p :=
            hforall xy (List.mem_cons_self xy t)
          rcases hq with h1 | ⟨z, hz, h2⟩
          · rw [h1, hhead]; exact ⟨⟨p, rfl⟩, rfl⟩
          · rw [← h2, hforall z (List.mem_cons_of_mem xy hz), hhead]
            exact ⟨⟨p, rfl⟩, rfl⟩

/-- Function `check_slice_for_winner` answers `none` exactly when the slice is
uniform for no piece. -/
theorem check_slice_for_winner_eq_none (b : Board) (s : List (Nat × Nat)) :
    check_slice_for_winner b s = none ↔ ¬ ∃ p, uniformLine b s p := by
  constructor
  · intro h ⟨p, hp⟩
    rw [(check_slice_for_winner_eq_some b s p).mpr hp] at h
    cases h
  · intro h
    cases ho : check_slice_for_winner b s with
    | none => rfl
    | some w =>
        exact absurd ⟨w, (check_slice_for_winner_eq_some b s w).mp ho⟩ h

/-- The scan of `check_winner` answers `none` exactly when every slice
answers `none`. -/
theorem check_winner_aux_eq_none (b : Board) (l : List (List (Nat × Nat))) :
    check_winner_aux b l = none ↔
      ∀ s ∈ l, check_slice_for_winner b s = none := by
  induction l with
  | nil => simp [check_winner_aux]
  | cons a t ih =>
      cases hc : check_slice_for_winner b a with
      | some w => simp [check_winner_aux, hc]
      | none => simp [check_winner_aux, hc, ih]

/-- The scan of `check_winner` answers `some p` exactly when some slice
answers `some p` and every slice before it answers `none` (first match
in list order). -/
theorem check_winner_aux_eq_some (b : Board) (l : List (List (Nat × Nat)))
    (p : Piece) :
    check_winner_aux b l = some p ↔
      ∃ l₁ s l₂, l = l₁ ++ s :: l₂ ∧
        check_slice_for_winner b s = some p ∧
        ∀ s' ∈ l₁, check_slice_for_winner b s' = none := by
  induction l with
  | nil =>
      simp only [check_winner_aux]
      constructor
      · intro h
        exact Option.noConfusion h
      · rintro ⟨l₁, s, l₂, heq, -, -⟩
        have hlen := congrArg List.length heq
        simp [List.length_append] at hlen
        omega
  | cons a t ih =>
      cases hc : check_slice_for_winner b a with
      | some w =>
          simp only [check_winner_aux, hc]
          constructor
          · intro h
            exact ⟨[], a, t, rfl, hc.trans h, by simp⟩
          · rintro ⟨l₁, s, l₂, heq, hs, hnone⟩
            cases l₁ with
            | nil =>
                have h1 : a = s := (List.cons.inj heq).1
                rw [h1] at hc
                rw [hc] at hs
                exact hs
            | cons a₁ t₁ =>
                have h1 : a = a₁ := (List.cons.inj heq).1
                have h2 := hnone a₁ (List.mem_cons_self a₁ t₁)
                rw [h1, h2] at hc
                exact Option.noConfusion hc
      | none =>
          simp only [check_winner_aux, hc]
          rw [ih]
          constructor
          · rintro ⟨l₁, s, l₂, heq, hs, hnone⟩
            refine ⟨a :: l₁, s, l₂, by rw [heq]; rfl, hs, ?_⟩
            intro s' hs'
            rcases List.mem_cons.mp hs' with h1 | h2
            · rw [h1]; exact hc
            · exact hnone s' h2
          · rintro ⟨l₁, s, l₂, heq, hs, hnone⟩
            cases l₁ with
            | nil =>
                have h1 : a = s := (List.cons.inj heq).1
                rw [← h1] at hs
                rw [hs] at hc
                exact Option.noConfusion hc
            | cons a₁ t₁ =>
                have heq' : t = t₁ ++ s :: l₂ := (List.cons.inj heq).2
                exact ⟨t₁, s, l₂, heq', hs,
                  fun s' h => hnone s' (List.mem_cons_of_mem a₁ h)⟩

/-- Claim C5.  `check_winner` answers `some p` exactly when, scanning
the precomputed lines in order, the first line that is fully occupied
by one identical piece is occupied by `p`; it answers `none` exactly
when no line is fully uniform and non-empty. -/
theorem check_winner_first_uniform_line (b : Board) (p : Piece) :
    (check_winner_aux b winning_positions = some p ↔
      ∃ l₁ s l₂, winning_positions = l₁ ++ s :: l₂ ∧
        uniformLine b s p ∧ ∀ s' ∈ l₁, ¬ ∃ q, uniformLine b s' q) ∧
    (check_winner_aux b winning_positions = none ↔
      ∀ s ∈ winning_positions, ¬ ∃ q, uniformLine b s q) := by
  constructor
  · rw [check_winner_aux_eq_some]
    constructor
    · rintro ⟨l₁, s, l₂, heq, hs, hnone⟩
      exact ⟨l₁, s, l₂, heq, (check_slice_for_winner_eq_some b s p).mp hs,
        fun s' h => (check_slice_for_winner_eq_none b s').mp (hnone s' h)⟩
    · rintro ⟨l₁, s, l₂, heq, hs, hnone⟩
      exact ⟨l₁, s, l₂, heq, (check_slice_for_winner_eq_some b s p).mpr hs,
        fun s' h => (check_slice_for_winner_eq_none b s').mpr (hnone s' h)⟩
  · rw [check_winner_aux_eq_none]
    constructor
    · intro h s hs
      exact (check_slice_for_winner_eq_none b s).mp (h s hs)
    · intro h s hs
      exact (check_slice_for_winner_eq_none b s).mpr (h s hs)

/-! ## Copy-on-write placement -/

/-- Claim C6.  On an empty board every in-bounds placement succeeds,
the placed cell then reads back the placed piece, every other cell
reads as it did before, and the original board still reads empty at the
target (the value is untouched by the copy-on-write placement). -/
theorem place_then_get_on_empty_board (x y : Nat) (p : Piece)
    (hx : x < BOARD_WIDTH) (hy : y < BOARD_WIDTH) :
    ∃ b', Board.new.set_piece x y p = .ok b' ∧
      b'.get_position x y = .ok (some p) ∧
      (∀ x', x' < BOARD_WIDTH → ∀ y', y' < BOARD_WIDTH →
        (x' ≠ x ∨ y' ≠ y) →
        b'.get_position x' y' = Board.new.get_position x' y') ∧
      Board.new.get_position x y = .ok none := by
  unfold BOARD_WIDTH at hx hy
  interval_cases x <;> interval_cases y <;> cases p <;>
    exact ⟨_, rfl, by decide, by decide, by decide⟩

/-- Witness for C6 at the concrete cell `(1, 2)` with `Cross`. -/
theorem place_then_get_on_empty_board_witness :
    (1 < BOARD_WIDTH ∧ 2 < BOARD_WIDTH) ∧
    ∃ b', Board.new.set_piece 1 2 Piece.Cross = .ok b' ∧
      b'.get_position 1 2 = .ok (some Piece.Cross) ∧
      (∀ x', x' < BOARD_WIDTH → ∀ y', y' < BOARD_WIDTH →
        (x' ≠ 1 ∨ y' ≠ 2) →
        b'.get_position x' y' = Board.new.get_position x' y') ∧
      Board.new.get_position 1 2 = .ok none :=
  ⟨⟨by decide, by decide⟩,
    place_then_get_on_empty_board 1 2 Piece.Cross (by decide) (by decide)⟩

/-! ## Round reset -/

/-- The inner loop changes only the board, never whose turn it is. -/
theorem innerLoop_turn_eq (script : List String) (st st' : GameState)
    (rest : List String) (h : innerLoop st script = some (st', rest)) :
    st'.turn = st.turn := by
  revert h
  induction script with
  | nil =>
      intro h
      exact Option.noConfusion h
  | cons line rest' ih =>
      intro h
      unfold innerLoop at h
      cases hm : getMove line with
      | none =>
          simp only [hm] at h
          exact Option.noConfusion h
      | some r =>
          simp only [hm] at h
          cases r with
          | error e => exact ih h
          | ok xy =>
              obtain ⟨x, y⟩ := xy
              cases hs : st.board.set_piece x y st.turn with
              | error e =>
                  simp only [hs] at h
                  exact ih h
              | ok board =>
                  simp only [hs] at h
                  have h1 : ({ st with board := board } : GameState) = st' :=
                    congrArg Prod.fst (Option.some.inj h)
                  rw [← h1]

/-- Inversion of a middle-loop iteration that ends the round with a
winner: the inner loop landed a move without touching the turn,
`check_winner` found a winner on the updated state, and the state
installed for the next round is `reset_state` of that updated state. -/
theorem midLoopBody_inl (st : GameState) (script : List String)
    (next : GameState) (rest : List String)
    (h : midLoopBody st script = some (.inl (next, rest))) :
    ∃ st', innerLoop st script = some (st', rest) ∧
      (∃ w, check_winner_aux st'.board winning_positions = some w) ∧
      next = reset_state st' := by
  unfold midLoopBody at h
  cases hi : innerLoop st script with
  | none =>
      simp only [hi] at h
      exact Option.noConfusion h
  | some pr =>
      obtain ⟨st', rest'⟩ := pr
      simp only [hi] at h
      cases hw : check_winner_aux st'.board winning_positions with
      | none =>
          simp only [hw] at h
          exact Sum.noConfusion (Option.some.inj h)
      | some w =>
          simp only [hw] at h
          have h2 : (reset_state st', rest') = (next, rest) :=
            Sum.inl.inj (Option.some.inj h)
          have h3 : reset_state st' = next := congrArg Prod.fst h2
          have h4 : rest' = rest := congrArg Prod.snd h2
          exact ⟨st', by rw [h4], ⟨w, hw⟩, h3.symm⟩

/-- Claim C3 (amended).  When a round ends in a win, the state
installed for the next round has an empty board, and its starting piece
is the *other* piece from the one that made the winning move (whose
turn was still current, since `run` breaks before flipping it); this
equals the other piece from the round's starter only when the starter
won. -/
theorem round_reset_flips_last_mover (st : GameState) (script : List String)
    (next : GameState) (rest : List String)
    (h : midLoopBody st script = some (.inl (next, rest))) :
    next.board = Board.new ∧ next.turn = change_turn st.turn ∧
    ∃ st', innerLoop st script = some (st', rest) ∧ st'.turn = st.turn ∧
      ∃ w, check_winner_aux st'.board winning_positions = some w := by
  obtain ⟨st', hi, hw, hnext⟩ := midLoopBody_inl st script next rest h
  have ht := innerLoop_turn_eq script st st' rest hi
  refine ⟨?_, ?_, st', hi, ht, hw⟩
  · rw [hnext]; rfl
  · rw [hnext]
    simp [reset_state, ht]

/-- Witness for C3 (amended): `Cross` completes the middle displayed
row from `nearWinBoard`, and the next round starts with `Naught`. -/
theorem round_reset_flips_last_mover_witness :
    (({ board := Board.new, turn := Piece.Naught } : GameState).board
        = Board.new ∧
      ({ board := Board.new, turn := Piece.Naught } : GameState).turn =
        change_turn ({ board := nearWinBoard, turn := Piece.Cross } : GameState).turn ∧
      ∃ st', innerLoop { board := nearWinBoard, turn := Piece.Cross } [("2 1")]
          = some (st', []) ∧
        st'.turn = ({ board := nearWinBoard, turn := Piece.Cross } : GameState).turn ∧
        ∃ w, check_winner_aux st'.board winning_positions = some w) :=
  round_reset_flips_last_mover
    { board := nearWinBoard, turn := Piece.Cross } [("2 1")]
    { board := Board.new, turn := Piece.Naught } [] rfl

/-- Counterexample to C3 as stated: `Naught` starts the round, `Cross`
wins it on the sixth move, and the reset hands the next round to
`Naught` again — not to `Cross`, the other piece from the round's
starter. -/
theorem round_reset_counterexample :
    Game.new.state.turn = Piece.Naught ∧
    playRound Game.new.state crossWinsScript 6 =
      some ({ board := Board.new, turn := Piece.Naught }, []) ∧
    change_turn Piece.Naught = Piece.Cross ∧
    Piece.Naught ≠ Piece.Cross :=
  ⟨rfl, rfl, rfl, by decide⟩

/-! ## Input coordinates versus displayed coordinates -/

/-- The raw position vector of a successful write: only the slot
`y * BOARD_WIDTH + x` is replaced. -/
theorem set_piece_ok_positions (b : Board) (x y : Nat) (p : Piece)
    (b' : Board) (h : b.set_piece x y p = .ok b') :
    b'.positions = b.positions.enum.map (fun ip =>
      if ip.1 = y * BOARD_WIDTH + x then some p else ip.2) := by
  unfold Board.set_piece at h
  cases hg : b.get_position x y with
  | error e =>
      simp only [hg] at h
      exact Except.noConfusion h
  | ok o =>
      cases o with
      | some q =>
          simp only [hg] at h
          exact Except.noConfusion h
      | none =>
          simp only [hg] at h
          rw [← Except.ok.inj h]

/-- Reading the rewritten vector: the marked slot holds the new piece,
all others their old value. -/
theorem getD_enumFrom_write (p : Piece) (k : Nat) :
    ∀ (l : List BoardPosition) (n i : Nat),
      ((List.enumFrom n l).map (fun ip =>
        if ip.1 = k then some p else ip.2)).getD i none =
        if n + i = k ∧ i < l.length then some p else l.getD i none := by
  intro l
  induction l with
  | nil =>
      intro n i
      simp
  | cons a t ih =>
      intro n i
      cases i with
      | zero => simp [List.enumFrom]
      | succ j =>
          simp only [List.enumFrom, List.map_cons, List.getD_cons_succ,
            List.length_cons]
          rw [ih (n + 1) j]
          have hiff : ((n + 1) + j = k ∧ j < t.length) ↔
              (n + (j + 1) = k ∧ j + 1 < t.length + 1) := by omega
          rw [if_congr hiff rfl rfl]

/-- Cell-level description of a successful write. -/
theorem set_piece_cell (b : Board) (x y : Nat) (p : Piece) (b' : Board)
    (h : b.set_piece x y p = .ok b') (i : Nat) :
    b'.positions.getD i none =
      if i = y * BOARD_WIDTH + x ∧ i < b.positions.length then some p
      else b.positions.getD i none := by
  rw [set_piece_ok_positions b x y p b' h]
  have h0 := getD_enumFrom_write p (y * BOARD_WIDTH + x) b.positions 0 i
  simpa [List.enum, Nat.zero_add, eq_comm] using h0

/-- Claim C4 (amended).  The first input token is `x`, the *column*,
and the second is `y`, the *row*: a move parsed from an input line to
`(x, y)` reads and writes the linear slot `y * BOARD_WIDTH + x` of the
row-major position vector, and the placed piece is rendered at
displayed row `y`, column `x`. -/
theorem move_writes_col_row_slot (line : String) (x y : Nat) (p : Piece)
    (b b' : Board)
    (hlen : b.positions.length = BOARD_WIDTH * BOARD_WIDTH)
    (_hmove : getMove line = some (.ok (x, y)))
    (hx : x < BOARD_WIDTH) (hy : y < BOARD_WIDTH)
    (hset : b.set_piece x y p = .ok b') :
    b.get_position x y = .ok (b.positions.getD (y * BOARD_WIDTH + x) none) ∧
    b'.displayCell y x = some p := by
  constructor
  · have hcond : ¬(x ≥ BOARD_WIDTH ∨ y ≥ BOARD_WIDTH) := by
      push_neg
      exact ⟨hx, hy⟩
    unfold Board.get_position
    rw [if_neg hcond]
  · unfold Board.displayCell
    rw [set_piece_cell b x y p b' hset (y * BOARD_WIDTH + x)]
    rw [if_pos]
    refine ⟨rfl, ?_⟩
    rw [hlen]
    unfold BOARD_WIDTH at hx hy ⊢
    omega

/-- Witness for C4 (amended) at the line parsed to `(1, 0)` on the
empty board. -/
theorem move_writes_col_row_slot_witness :
    Board.new.get_position 1 0 =
      .ok (Board.new.positions.getD (0 * BOARD_WIDTH + 1) none) ∧
    placedBoard.displayCell 0 1 = some Piece.Naught :=
  move_writes_col_row_slot ("1 0") 1 0 Piece.Naught Board.new placedBoard
    rfl rfl (by decide) (by decide) rfl

/-- Counterexample to C4 as stated: the line `"1 0"` parses to
`(1, 0)`; were the first token the row, the piece would land at
displayed row 1, column 0 — instead the board shows it at displayed
row 0, column 1, as the rendered grid confirms. -/
theorem move_rendering_counterexample :
    getMove ("1 0") = some (.ok (1, 0)) ∧
    Board.new.set_piece 1 0 Piece.Naught = .ok placedBoard ∧
    placedBoard.displayCell 1 0 = none ∧
    placedBoard.displayCell 0 1 = some Piece.Naught ∧
    Board.render placedBoard = (". O . \n. . . \n. . . \n") :=
  ⟨rfl, rfl, rfl, rfl, rfl⟩

end TicTacToe
